import Mathlib

/-!
Verification of the research-pipeline component of the BuyClub page analyzer
(`src/app.py`).  The definitions below are a shallow embedding of the Python
source: the query planner, the search-result gathering loop, the
dedup/denylist/label filter, the evidence formatter of `perform_research`,
and the score extraction of `archive_report`.  Python dictionaries returned
by the search provider are modelled as records with optional fields
(a missing key raises `KeyError`, modelled as `Except.error`), Python string
membership (`sub in s`) as the executable `strContains`, and
`url.split('/')` as `splitChar '/'` over the character list.
-/

/-- Characters of a string; `String.mk` is its inverse. -/
theorem toList_mk (cs : List Char) : (String.mk cs).toList = cs := rfl

/-- Python `sub in s` substring test on character lists: some tail of the
list starts with the pattern (the empty pattern is contained in anything). -/
def hasSub (pat : List Char) : List Char → Bool
  | [] => pat.isEmpty
  | c :: cs => pat.isPrefixOf (c :: cs) || hasSub pat cs

/-- Python `needle in hay` for strings. -/
def strContains (hay needle : String) : Bool :=
  hasSub needle.toList hay.toList

/-- Python `s.split(sep)` for a one-character separator, on character lists:
keeps empty fields, `"".split` is `[""]`. -/
def splitChar (sep : Char) : List Char → List (List Char)
  | [] => [[]]
  | c :: cs =>
    if c = sep then [] :: splitChar sep cs
    else
      match splitChar sep cs with
      | [] => [[c]]
      | h :: t => (c :: h) :: t

/-- Python truthiness of a string: nonempty. -/
def pyNonEmpty (s : String) : Bool := decide (s ≠ "")

/-- Line 254 of `app.py`:
`domain = url.split('/')[2] if '//' in url else url.split('/')[0]`. -/
def extract_domain (url : String) : String :=
  if strContains url "//" then String.mk ((splitChar '/' url.toList).getD 2 [])
  else String.mk ((splitChar '/' url.toList).getD 0 [])

/-- Line 204 of `app.py`: the static denylist. -/
def banned_domains : List String :=
  ["wanderlog.com", "restaurantguru.com", "sluurpy.com", "top10.com", "trip.com"]

/-- Line 259 of `app.py`: `any(bad in domain for bad in banned_domains)`. -/
def bannedHit (domain : String) : Bool :=
  banned_domains.any (fun bad => strContains domain bad)

/-- Lines 261-268 of `app.py`: the if/elif chain assigning `source_label`
from the domain. -/
def labelOf (domain : String) : String :=
  if strContains domain "google" then "GOOGLE REVIEWS"
  else if strContains domain "booking.com" then "BOOKING.COM"
  else if strContains domain "michelin" then "MICHELIN GUIDE (Swiss/FR)"
  else if strContains domain "gaultmillau" then "GAULT MILLAU (Swiss/FR)"
  else if strContains domain "tripadvisor" then "TRIPADVISOR"
  else if strContains domain "lematin" || strContains domain "20min" || strContains domain "tdg.ch" then "SWISS PRESS"
  else if strContains domain "elle" || strContains domain "vogue" || strContains domain "cosmo" then "FASHION MAGAZINE"
  else "General Web"

/-- Lines 206-234 of `app.py`: the query planner.  The base query always
comes first; exactly one category branch (Restaurant, then Hotel, then Spa)
may append extra queries; `treatment_terms` is read only in the Spa branch. -/
def plan (merchant_name category location treatment_terms : String) : List String :=
  let queries := [merchant_name ++ " " ++ location ++ " google reviews official website"]
  if pyNonEmpty category && strContains category "Restaurant" then
    queries ++
      ["site:guide.michelin.com/ch/fr " ++ merchant_name,
       "site:gaultmillau.ch/fr " ++ merchant_name,
       "site:lematin.ch OR site:20min.ch OR site:tdg.ch OR site:letemps.ch " ++ merchant_name]
  else if pyNonEmpty category && strContains category "Hotel" then
    queries ++
      ["site:booking.com " ++ merchant_name ++ " " ++ location ++ " reviews",
       "site:tripadvisor.com " ++ merchant_name ++ " \"Certificate of Excellence\""]
  else if pyNonEmpty category && strContains category "Spa" then
    let search_scope := "site:elle.com OR site:cosmopolitan.com OR site:vogue.com OR site:marieclaire.com"
    if pyNonEmpty treatment_terms then
      let terms := (treatment_terms.splitOn ",").map String.trim
      let joined_terms := String.intercalate " OR " (terms.map (fun t => "\"" ++ t ++ "\""))
      queries ++ [search_scope ++ " (" ++ joined_terms ++ ")"]
    else
      queries ++ [search_scope ++ " " ++ merchant_name]
  else queries

/-- One raw search result as returned by the provider: a dictionary whose
`url` / `title` / `content` keys may be absent. -/
structure RawResult where
  url : Option String
  title : Option String
  content : Option String
deriving DecidableEq

/-- One surviving, labeled evidence record (the spec's LabeledEvidence). -/
structure LabeledEvidence where
  source_label : String
  url : String
  title : String
  snippet : String
deriving DecidableEq

/-- Lines 246-270 of `app.py`, split into the spec's `filter_and_label`
shape: the single pass over the raw results, threading the set of seen urls.
Key access order follows the source (`url`, then `title`, then `content`);
a missing key is the Python `KeyError`, carried as `Except.error` with the
`str(KeyError(k))` rendering `'k'`. -/
def filterLoop (seen : List String) : List RawResult → Except String (List LabeledEvidence)
  | [] => Except.ok []
  | ⟨ou, ot, oc⟩ :: rest =>
    match ou with
    | none => Except.error "'url'"
    | some url =>
      match ot with
      | none => Except.error "'title'"
      | some title =>
        match oc with
        | none => Except.error "'content'"
        | some content =>
          let domain := extract_domain url
          if url ∈ seen then
            filterLoop seen rest
          else if bannedHit domain then
            filterLoop (url :: seen) rest
          else
            match filterLoop (url :: seen) rest with
            | Except.error e => Except.error e
            | Except.ok out =>
                Except.ok ({ source_label := labelOf domain, url := url,
                             title := title, snippet := content } :: out)

/-- The spec's `filter_and_label`: the filter pass started with no seen urls. -/
def filter_and_label (raw_results : List RawResult) : Except String (List LabeledEvidence) :=
  filterLoop [] raw_results

/-- Line 270 of `app.py`: the evidence block appended to `context_data`. -/
def renderBlock (e : LabeledEvidence) : String :=
  "SOURCE: " ++ e.source_label ++ "\nURL: " ++ e.url ++ "\nTITLE: " ++ e.title ++
    "\nSNIPPET: " ++ e.snippet ++ "\n-------------------"

/-- The spec's `format`: line 275 of `app.py`, `"\n".join(context_data)`. -/
def formatEvidence (evidence : List LabeledEvidence) : String :=
  String.intercalate "\n" (evidence.map renderBlock)

/-- Lines 246-270 of `app.py` exactly as written: the loop builds the
formatted blocks directly into `context_data`. -/
def filterFormatLoop (seen : List String) : List RawResult → Except String (List String)
  | [] => Except.ok []
  | ⟨ou, ot, oc⟩ :: rest =>
    match ou with
    | none => Except.error "'url'"
    | some url =>
      match ot with
      | none => Except.error "'title'"
      | some title =>
        match oc with
        | none => Except.error "'content'"
        | some content =>
          let domain := extract_domain url
          if url ∈ seen then
            filterFormatLoop seen rest
          else if bannedHit domain then
            filterFormatLoop (url :: seen) rest
          else
            match filterFormatLoop (url :: seen) rest with
            | Except.error e => Except.error e
            | Except.ok blocks =>
                Except.ok (("SOURCE: " ++ labelOf domain ++ "\nURL: " ++ url ++ "\nTITLE: " ++ title ++
                  "\nSNIPPET: " ++ content ++ "\n-------------------") :: blocks)

/-- Lines 237-243 of `app.py`: execute the planned queries in order against
the search client, concatenating each query's result page onto
`all_results`; a failing query contributes nothing (`except: continue`). -/
def gather (search : String → Except String (List RawResult)) : List String → List RawResult
  | [] => []
  | q :: qs =>
    (match search q with
     | Except.ok rs => rs
     | Except.error _ => ([] : List RawResult)) ++ gather search qs

/-- Lines 198-277 of `app.py`: `perform_research`, with the search client
passed in as an oracle.  An exception escaping the filter loop (a `KeyError`
from a malformed record) is caught by the outer handler and rendered as
`"Search failed: ..."`. -/
def perform_research (search : String → Except String (List RawResult))
    (merchant_name category location treatment_terms : String) : String :=
  let queries := plan merchant_name category location treatment_terms
  let all_results := gather search queries
  match filterFormatLoop [] all_results with
  | Except.ok context_data => String.intercalate "\n" context_data
  | Except.error e => "Search failed: " ++ e

/-- Characters matched by `[:\s]` in the score regex of line 339 of `app.py`
(ASCII whitespace as matched by Python `\s`). -/
def isSepChar (c : Char) : Bool :=
  c == ':' || c == ' ' || c == '\t' || c == '\n' || c == '\x0b' || c == '\x0c' || c == '\r'

/-- One anchored attempt of `re.search(r"Score[:\s]+(\d{1,3})(?:\D|$)", _,
re.IGNORECASE)` at the start of `cs`: case-insensitive `Score`, then a
nonempty run of `[:\s]`, then a digit run which must be 1-3 long (a run of
four or more digits makes every greedy/backtracked split fail the
`(?:\D|$)` guard, so the attempt fails). -/
def tryScoreAt (cs : List Char) : Option String :=
  if (cs.take 5).map Char.toLower = ['s', 'c', 'o', 'r', 'e'] then
    let rest := cs.drop 5
    let sepRun := rest.takeWhile isSepChar
    if sepRun.isEmpty then none
    else
      let digits := (rest.drop sepRun.length).takeWhile Char.isDigit
      if digits.length = 0 || 3 < digits.length then none
      else some (String.mk digits)
  else none

/-- `re.search` position scan: leftmost position whose anchored attempt
succeeds. -/
def searchScoreAux : List Char → Option String
  | [] => none
  | c :: cs =>
    match tryScoreAt (c :: cs) with
    | some g => some g
    | none => searchScoreAux cs

/-- Lines 339-340 of `app.py`: `score_match.group(1) if score_match else "N/A"`. -/
def extractScore (report_text : String) : String :=
  match searchScoreAux report_text.toList with
  | some g => g
  | none => "N/A"

/-- The report text contains a case-insensitive `Score` token. -/
def hasScoreToken (s : String) : Bool :=
  hasSub ['s', 'c', 'o', 'r', 'e'] (s.toList.map Char.toLower)

/-- Spec-side definition (section 4.3e of the spec): a row of the label
table matches when any of its substrings occurs in the domain. -/
def rowMatches (domain : String) (row : List String × String) : Bool :=
  row.1.any (fun key => strContains domain key)

/-- Spec-side definition: first matching row wins, no match gives the
generic label. -/
def tableLookup : List (List String × String) → String → String
  | [], _ => "General Web"
  | row :: rows, domain => if rowMatches domain row then row.2 else tableLookup rows domain

/-- Spec-side definition: the ordered domain-substring label table of
section 4.3e. -/
def labelTable : List (List String × String) :=
  [(["google"], "GOOGLE REVIEWS"),
   (["booking.com"], "BOOKING.COM"),
   (["michelin"], "MICHELIN GUIDE (Swiss/FR)"),
   (["gaultmillau"], "GAULT MILLAU (Swiss/FR)"),
   (["tripadvisor"], "TRIPADVISOR"),
   (["lematin", "20min", "tdg.ch"], "SWISS PRESS"),
   (["elle", "vogue", "cosmo"], "FASHION MAGAZINE")]

/-- Remainder of the list after the first occurrence of `pat`, or `none`
when `pat` does not occur. -/
def dropAfter (pat : List Char) : List Char → Option (List Char)
  | [] => if pat.isEmpty then some [] else none
  | c :: cs =>
    if pat.isPrefixOf (c :: cs) then some ((c :: cs).drop pat.length)
    else dropAfter pat cs

/-- Spec-side definition (section 4.3a of the spec, claim C8): the domain is
the substring between the first `//` and the next `/`, or the whole string
when no `//` is present. -/
def specDomain (url : String) : String :=
  match dropAfter ['/', '/'] url.toList with
  | some rest => String.mk (rest.takeWhile (fun c => !(c == '/')))
  | none => url

/-- Spec-side definition (section 3 of the spec, claim C4): first-seen order
of a url trace, skipping urls already seen. -/
def firstOccur (seen : List String) : List String → List String
  | [] => []
  | u :: us =>
    if u ∈ seen then firstOccur seen us
    else u :: firstOccur (u :: seen) us

/-- `splitChar` always returns at least one field. -/
theorem splitChar_ne_nil (sep : Char) (cs : List Char) : splitChar sep cs ≠ [] := by
  induction cs with
  | nil => simp [splitChar]
  | cons c cs ih =>
    by_cases hc : c = sep
    · simp [splitChar, hc]
    · cases hsc : splitChar sep cs with
      | nil => exact absurd hsc ih
      | cons h t => simp [splitChar, hc, hsc]

/-- The first field of `splitChar` is the run before the first separator. -/
theorem splitChar_getD_zero (sep : Char) (cs : List Char) :
    (splitChar sep cs).getD 0 [] = cs.takeWhile (fun c => !(c == sep)) := by
  induction cs with
  | nil => simp [splitChar]
  | cons c cs ih =>
    by_cases hc : c = sep
    · subst hc; simp [splitChar, List.takeWhile_cons]
    · cases hsc : splitChar sep cs with
      | nil => exact absurd hsc (splitChar_ne_nil sep cs)
      | cons h t =>
        rw [hsc] at ih
        simp [splitChar, hc, hsc, List.takeWhile_cons]
        simpa using ih

/-- Splitting after a separator-free prefix prepends that prefix to the
first field. -/
theorem splitChar_append (sep : Char) (pre l : List Char) (hpre : ∀ c ∈ pre, c ≠ sep) :
    ∃ h t, splitChar sep l = h :: t ∧ splitChar sep (pre ++ l) = (pre ++ h) :: t := by
  induction pre with
  | nil =>
    cases hsc : splitChar sep l with
    | nil => exact absurd hsc (splitChar_ne_nil sep l)
    | cons h t => exact ⟨h, t, rfl, by simpa using hsc⟩
  | cons c pre ih =>
    have hc : c ≠ sep := hpre c (by simp)
    obtain ⟨h, t, h1, h2⟩ := ih (fun d hd => hpre d (by simp [hd]))
    refine ⟨h, t, h1, ?_⟩
    rw [List.cons_append]
    simp [splitChar, hc, h2]

/-- A list is a boolean prefix of itself followed by anything. -/
theorem isPrefixOf_append_self (pat post : List Char) : pat.isPrefixOf (pat ++ post) = true := by
  induction pat with
  | nil => simp [List.isPrefixOf]
  | cons a as ih => simp [List.isPrefixOf, ih]

/-- A boolean prefix is a boolean substring. -/
theorem hasSub_of_isPrefixOf (pat cs : List Char) (hp : pat.isPrefixOf cs = true) :
    hasSub pat cs = true := by
  cases cs with
  | nil =>
    cases pat with
    | nil => rfl
    | cons a as => simp [List.isPrefixOf] at hp
  | cons c cs => simp [hasSub, hp]

/-- A substring of the right part is a substring of an append. -/
theorem hasSub_append_of_right (pat pre cs : List Char) (h : hasSub pat cs = true) :
    hasSub pat (pre ++ cs) = true := by
  induction pre with
  | nil => simpa using h
  | cons c pre ih => simp [hasSub, ih]

/-- A pattern occurs in any list built around it. -/
theorem hasSub_self_append (pat post : List Char) : hasSub pat (pat ++ post) = true :=
  hasSub_of_isPrefixOf _ _ (isPrefixOf_append_self pat post)

/-- `dropAfter` on a `//` occurring right after a slash-free prefix returns
everything after that `//`. -/
theorem dropAfter_slashes (pre rest : List Char) (hpre : ∀ c ∈ pre, c ≠ '/') :
    dropAfter ['/', '/'] (pre ++ '/' :: '/' :: rest) = some rest := by
  induction pre with
  | nil =>
    have hp : (['/', '/'] : List Char).isPrefixOf ('/' :: '/' :: rest) = true :=
      isPrefixOf_append_self ['/', '/'] rest
    simp [dropAfter, hp]
  | cons c pre ih =>
    have hc : c ≠ '/' := hpre c (by simp)
    have hnp : (['/', '/'] : List Char).isPrefixOf (c :: (pre ++ '/' :: '/' :: rest)) = false := by
      simp [List.isPrefixOf]
      intro h
      exact absurd h.symm hc
    rw [List.cons_append]
    simp [dropAfter, hnp]
    exact ih (fun d hd => hpre d (by simp [hd]))

/-- Membership in `firstOccur`: the urls of the trace not already seen. -/
theorem mem_firstOccur (l : List String) : ∀ (seen : List String) (v : String),
    v ∈ firstOccur seen l ↔ v ∈ l ∧ v ∉ seen := by
  induction l with
  | nil => intro seen v; simp [firstOccur]
  | cons u us ih =>
    intro seen v
    by_cases hu : u ∈ seen
    · rw [firstOccur, if_pos hu, ih]
      constructor
      · rintro ⟨h1, h2⟩; exact ⟨List.mem_cons_of_mem _ h1, h2⟩
      · rintro ⟨h1, h2⟩
        rcases List.mem_cons.mp h1 with h1 | h1
        · exact absurd (h1 ▸ hu) h2
        · exact ⟨h1, h2⟩
    · rw [firstOccur, if_neg hu]
      constructor
      · intro hmem
        rcases List.mem_cons.mp hmem with h1 | h1
        · exact ⟨List.mem_cons.mpr (Or.inl h1), by rw [h1]; exact hu⟩
        · have := (ih (u :: seen) v).mp h1
          exact ⟨List.mem_cons_of_mem _ this.1, fun hs => this.2 (List.mem_cons_of_mem _ hs)⟩
      · rintro ⟨h1, h2⟩
        by_cases hv : v = u
        · exact hv ▸ List.mem_cons_self _ _
        · rcases List.mem_cons.mp h1 with h1 | h1
          · exact absurd h1 hv
          · exact List.mem_cons_of_mem _ ((ih (u :: seen) v).mpr
              ⟨h1, fun hs => (List.mem_cons.mp hs).elim hv h2⟩)

/-- The `firstOccur` trace has no duplicates. -/
theorem firstOccur_nodup (l : List String) : ∀ seen : List String, (firstOccur seen l).Nodup := by
  induction l with
  | nil => intro seen; simp [firstOccur]
  | cons u us ih =>
    intro seen
    by_cases hu : u ∈ seen
    · rw [firstOccur, if_pos hu]; exact ih seen
    · rw [firstOccur, if_neg hu]
      refine List.nodup_cons.mpr ⟨?_, ih (u :: seen)⟩
      intro hmem
      exact ((mem_firstOccur us (u :: seen) u).mp hmem).2 (List.mem_cons_self _ _)

/-- The url trace of a successful filter pass: first occurrences, in arrival
order, of the urls not already seen, keeping exactly the non-denylisted
ones. -/
theorem filterLoop_urls (rs : List RawResult) : ∀ (seen : List String) (out : List LabeledEvidence),
    filterLoop seen rs = Except.ok out →
    out.map (fun e => e.url) =
      (firstOccur seen (rs.map (fun r => r.url.getD ""))).filter
        (fun u => !bannedHit (extract_domain u)) := by
  induction rs with
  | nil =>
    intro seen out h
    simp [filterLoop] at h
    subst h
    simp [firstOccur]
  | cons r rest ih =>
    intro seen out h
    obtain ⟨ou, ot, oc⟩ := r
    cases ou with
    | none => simp [filterLoop] at h
    | some u =>
      cases ot with
      | none => simp [filterLoop] at h
      | some t =>
        cases oc with
        | none => simp [filterLoop] at h
        | some cnt =>
          by_cases hmem : u ∈ seen
          · simp only [filterLoop, if_pos hmem] at h
            have := ih seen out h
            simpa [firstOccur, hmem] using this
          · by_cases hb : bannedHit (extract_domain u) = true
            · simp only [filterLoop, if_neg hmem, hb, if_pos] at h
              have := ih (u :: seen) out h
              simpa [firstOccur, hmem, hb] using this
            · simp only [Bool.not_eq_true] at hb
              simp only [filterLoop, if_neg hmem, hb, Bool.false_eq_true, if_neg,
                not_false_eq_true] at h
              cases hrec : filterLoop (u :: seen) rest with
              | error e => rw [hrec] at h; simp at h
              | ok out' =>
                rw [hrec] at h
                simp only [Except.ok.injEq] at h
                subst h
                have := ih (u :: seen) out' hrec
                simpa [firstOccur, hmem, hb] using this

/-- Every emitted evidence record carries the label of its extracted domain,
survives the denylist, reproduces the fields of a raw result of the input,
and has a url that was not already seen. -/
theorem filterLoop_mem (rs : List RawResult) : ∀ (seen : List String) (out : List LabeledEvidence),
    filterLoop seen rs = Except.ok out → ∀ e ∈ out,
      e.source_label = labelOf (extract_domain e.url) ∧
      bannedHit (extract_domain e.url) = false ∧
      RawResult.mk (some e.url) (some e.title) (some e.snippet) ∈ rs ∧
      e.url ∉ seen := by
  induction rs with
  | nil =>
    intro seen out h
    simp [filterLoop] at h
    subst h
    intro e he
    simp at he
  | cons r rest ih =>
    intro seen out h
    obtain ⟨ou, ot, oc⟩ := r
    cases ou with
    | none => simp [filterLoop] at h
    | some u =>
      cases ot with
      | none => simp [filterLoop] at h
      | some t =>
        cases oc with
        | none => simp [filterLoop] at h
        | some cnt =>
          by_cases hmem : u ∈ seen
          · simp only [filterLoop, if_pos hmem] at h
            intro e he
            obtain ⟨h1, h2, h3, h4⟩ := ih seen out h e he
            exact ⟨h1, h2, List.mem_cons_of_mem _ h3, h4⟩
          · by_cases hb : bannedHit (extract_domain u) = true
            · simp only [filterLoop, if_neg hmem, hb, if_pos] at h
              intro e he
              obtain ⟨h1, h2, h3, h4⟩ := ih (u :: seen) out h e he
              exact ⟨h1, h2, List.mem_cons_of_mem _ h3,
                fun hs => h4 (List.mem_cons_of_mem _ hs)⟩
            · simp only [Bool.not_eq_true] at hb
              simp only [filterLoop, if_neg hmem, hb, Bool.false_eq_true, if_neg,
                not_false_eq_true] at h
              cases hrec : filterLoop (u :: seen) rest with
              | error e0 => rw [hrec] at h; simp at h
              | ok out' =>
                rw [hrec] at h
                simp only [Except.ok.injEq] at h
                subst h
                intro e he
                rcases List.mem_cons.mp he with rfl | he
                · exact ⟨rfl, hb, List.mem_cons_self _ _, hmem⟩
                · obtain ⟨h1, h2, h3, h4⟩ := ih (u :: seen) out' hrec e he
                  exact ⟨h1, h2, List.mem_cons_of_mem _ h3,
                    fun hs => h4 (List.mem_cons_of_mem _ hs)⟩

/-- A raw result with a missing `url`, `title` or `content` key makes the
whole filter pass fail with a `KeyError`, whatever else is in the batch. -/
theorem filterLoop_missing (rs : List RawResult) :
    ∀ seen : List String, (∃ r ∈ rs, r.url = none ∨ r.title = none ∨ r.content = none) →
    ∃ msg, filterLoop seen rs = Except.error msg := by
  induction rs with
  | nil =>
    intro seen h
    obtain ⟨r, hr, _⟩ := h
    simp at hr
  | cons r rest ih =>
    intro seen h
    obtain ⟨ou, ot, oc⟩ := r
    cases ou with
    | none => exact ⟨"'url'", by simp [filterLoop]⟩
    | some u =>
      cases ot with
      | none => exact ⟨"'title'", by simp [filterLoop]⟩
      | some t =>
        cases oc with
        | none => exact ⟨"'content'", by simp [filterLoop]⟩
        | some cnt =>
          have hrest : ∃ r ∈ rest, r.url = none ∨ r.title = none ∨ r.content = none := by
            obtain ⟨r, hr, hx⟩ := h
            rcases List.mem_cons.mp hr with rfl | hr
            · simp at hx
            · exact ⟨r, hr, hx⟩
          by_cases hmem : u ∈ seen
          · obtain ⟨msg, hmsg⟩ := ih seen hrest
            exact ⟨msg, by simp only [filterLoop, if_pos hmem]; exact hmsg⟩
          · by_cases hb : bannedHit (extract_domain u) = true
            · obtain ⟨msg, hmsg⟩ := ih (u :: seen) hrest
              exact ⟨msg, by simp only [filterLoop, if_neg hmem, hb, if_pos]; exact hmsg⟩
            · obtain ⟨msg, hmsg⟩ := ih (u :: seen) hrest
              refine ⟨msg, ?_⟩
              simp only [Bool.not_eq_true] at hb
              simp only [filterLoop, if_neg hmem, hb, Bool.false_eq_true, if_neg,
                not_false_eq_true, hmsg]

/-- The fused source loop produces exactly the rendered blocks of the
structured filter pass. -/
theorem filterFormat_eq (rs : List RawResult) : ∀ seen : List String,
    filterFormatLoop seen rs = (filterLoop seen rs).map (fun out => out.map renderBlock) := by
  induction rs with
  | nil => intro seen; simp [filterLoop, filterFormatLoop, Except.map]
  | cons r rest ih =>
    intro seen
    obtain ⟨ou, ot, oc⟩ := r
    cases ou with
    | none => simp [filterLoop, filterFormatLoop, Except.map]
    | some u =>
      cases ot with
      | none => simp [filterLoop, filterFormatLoop, Except.map]
      | some t =>
        cases oc with
        | none => simp [filterLoop, filterFormatLoop, Except.map]
        | some cnt =>
          by_cases hmem : u ∈ seen
          · simp only [filterLoop, filterFormatLoop, if_pos hmem]
            exact ih seen
          · by_cases hb : bannedHit (extract_domain u) = true
            · simp only [filterLoop, filterFormatLoop, if_neg hmem, hb, if_pos]
              exact ih (u :: seen)
            · simp only [Bool.not_eq_true] at hb
              simp only [filterLoop, filterFormatLoop, if_neg hmem, hb, Bool.false_eq_true,
                if_neg, not_false_eq_true]
              rw [ih (u :: seen)]
              cases hrec : filterLoop (u :: seen) rest with
              | error e0 => simp [Except.map]
              | ok out' => simp [Except.map, renderBlock]

/-- A query whose search call fails contributes exactly what a query
returning an empty page contributes: nothing, with every other query
untouched. -/
theorem gather_error_eq_empty (search : String → Except String (List RawResult))
    (q0 msg : String) (qs : List String) :
    gather (fun q => if q = q0 then Except.error msg else search q) qs =
      gather (fun q => if q = q0 then Except.ok [] else search q) qs := by
  induction qs with
  | nil => rfl
  | cons q qs ih =>
    by_cases hq : q = q0
    · simp only [gather, if_pos hq, ih, List.nil_append]
    · simp only [gather, if_neg hq, ih]

/-- When every search call fails, no raw result is gathered. -/
theorem gather_all_error (msg : String) (qs : List String) :
    gather (fun _ => Except.error msg) qs = [] := by
  induction qs with
  | nil => rfl
  | cons q qs ih => simp only [gather, ih, List.nil_append]

/-- An initial segment is a boolean prefix. -/
theorem take_isPrefixOf (n : Nat) (l : List Char) : (l.take n).isPrefixOf l = true := by
  induction l generalizing n with
  | nil => cases n <;> simp [List.isPrefixOf]
  | cons c cs ih =>
    cases n with
    | zero => simp [List.isPrefixOf]
    | succ n => simp [List.take_succ_cons, List.isPrefixOf, ih]

/-- A successful score search implies the text holds a case-insensitive
`score` token. -/
theorem searchScoreAux_token (cs : List Char) (g : String) (h : searchScoreAux cs = some g) :
    hasSub ['s', 'c', 'o', 'r', 'e'] (cs.map Char.toLower) = true := by
  induction cs with
  | nil => simp [searchScoreAux] at h
  | cons c cs ih =>
    by_cases hcond : ((c :: cs).take 5).map Char.toLower = ['s', 'c', 'o', 'r', 'e']
    · have hpre : (['s', 'c', 'o', 'r', 'e'] : List Char).isPrefixOf
          ((c :: cs).map Char.toLower) = true := by
        rw [← hcond, List.map_take]
        exact take_isPrefixOf 5 _
      exact hasSub_of_isPrefixOf _ _ hpre
    · have hnone : tryScoreAt (c :: cs) = none := by
        simp only [tryScoreAt, if_neg hcond]
      rw [searchScoreAux, hnone] at h
      have := ih h
      simp only [List.map_cons, hasSub, this, Bool.or_true]

/-- A category containing `Restaurant` is a nonempty string. -/
theorem restaurant_nonempty (c : String) (h : strContains c "Restaurant" = true) :
    pyNonEmpty c = true := by
  by_cases hc : c = ""
  · subst hc
    exact absurd h (by decide)
  · simp [pyNonEmpty, hc]

/-- Claim C1, counterexample: for merchant `Le Petit Cafe` in `Geneva` the
first planned query is not the spec's
`"{merchant_name} {location} reviews official website"`; the code inserts
`google` between the location and `reviews`. -/
theorem c1_counterexample :
    (plan "Le Petit Cafe" "General" "Geneva" "").head? ≠
        some "Le Petit Cafe Geneva reviews official website" ∧
    (plan "Le Petit Cafe" "General" "Geneva" "").head? =
        some "Le Petit Cafe Geneva google reviews official website" := by
  constructor
  · decide
  · decide

/-- Claim C1 (amended): the planner always emits as its first query the
generic query `"{merchant_name} {location} google reviews official
website"`; for every category containing none of `Restaurant`, `Hotel`,
`Spa` the planned list is exactly that one query, and for a category
containing `Restaurant` it has exactly four queries (the generic one
first). -/
theorem c1_query_plan (merchant_name category location treatment_terms : String) :
    (plan merchant_name category location treatment_terms).head? =
        some (merchant_name ++ " " ++ location ++ " google reviews official website") ∧
    (strContains category "Restaurant" = false → strContains category "Hotel" = false →
      strContains category "Spa" = false →
      plan merchant_name category location treatment_terms =
        [merchant_name ++ " " ++ location ++ " google reviews official website"]) ∧
    (strContains category "Restaurant" = true →
      (plan merchant_name category location treatment_terms).length = 4) := by
  refine ⟨?_, ?_, ?_⟩
  · simp only [plan]
    split
    · simp
    · split
      · simp
      · split
        · split
          · simp
          · simp
        · simp
  · intro hR hH hS
    simp [plan, hR, hH, hS]
  · intro hR
    have hne := restaurant_nonempty category hR
    simp [plan, hR, hne]

/-- Claim C1, witness: a plain category plans exactly the one generic
query. -/
theorem c1_query_plan_witness :
    plan "Le Petit Cafe" "General" "Geneva" "" =
      ["Le Petit Cafe Geneva google reviews official website"] :=
  (c1_query_plan "Le Petit Cafe" "General" "Geneva" "").2.1 (by decide) (by decide) (by decide)

/-- Claim C10: for every category whose text does not contain `Spa`, the
planned query list does not depend on `treatment_terms`; only the Spa
branch reads it. -/
theorem c10_treatment_independence (m c l t1 t2 : String)
    (h : strContains c "Spa" = false) : plan m c l t1 = plan m c l t2 := by
  simp [plan, h]

/-- Claim C10, witness: a Hotel plan is identical under two different
treatment terms. -/
theorem c10_treatment_independence_witness :
    plan "Amore Amore" "Hotel" "Geneva" "Microneedling" =
      plan "Amore Amore" "Hotel" "Geneva" "Botox" :=
  c10_treatment_independence "Amore Amore" "Hotel" "Geneva" "Microneedling" "Botox" (by decide)

/-- A raw result on the denylisted domain `wanderlog.com`. -/
def c2BanRaw : RawResult :=
  { url := some "http://wanderlog.com/p", title := some "T", content := some "C" }

/-- Claim C2, counterexample: two raw results with the identical url
`http://wanderlog.com/p` produce zero labeled entries for that url, not
exactly one — the denylist drops the first occurrence and dedup drops the
second. -/
theorem c2_counterexample :
    filter_and_label [c2BanRaw, c2BanRaw] = Except.ok [] ∧
    List.count "http://wanderlog.com/p"
        (((filter_and_label [c2BanRaw, c2BanRaw]).toOption.getD []).map
          (fun e => e.url)) ≠ 1 := by
  constructor
  · rfl
  · decide

/-- Claim C2 (amended): on a successful filter pass no two labeled entries
share a url; for a url whose extracted domain passes the denylist and that
occurs in the raw results, exactly one entry is emitted, carrying the label
its domain determines (so the label computed at the first occurrence);
later duplicates are dropped silently. -/
theorem c2_dedup (rs : List RawResult) (out : List LabeledEvidence) (u : String)
    (h : filter_and_label rs = Except.ok out) :
    (out.map (fun e => e.url)).Nodup ∧
    ((∃ r ∈ rs, r.url = some u) → bannedHit (extract_domain u) = false →
      List.count u (out.map (fun e => e.url)) = 1 ∧
      ∀ e ∈ out, e.url = u → e.source_label = labelOf (extract_domain u)) := by
  have hurls := filterLoop_urls rs [] out h
  have hnodup : (out.map (fun e => e.url)).Nodup := by
    rw [hurls]
    exact (firstOccur_nodup _ []).filter _
  refine ⟨hnodup, ?_⟩
  rintro ⟨r, hr, hru⟩ hb
  have hmem : u ∈ out.map (fun e => e.url) := by
    rw [hurls]
    apply List.mem_filter.mpr
    refine ⟨?_, by simp [hb]⟩
    apply (mem_firstOccur _ [] u).mpr
    refine ⟨?_, by simp⟩
    exact List.mem_map.mpr ⟨r, hr, by rw [hru]; rfl⟩
  refine ⟨List.count_eq_one_of_mem hnodup hmem, ?_⟩
  intro e he hu
  have hlab := (filterLoop_mem rs [] out h e he).1
  rw [hu] at hlab
  exact hlab

/-- A duplicated raw result on a plain surviving domain. -/
def c2DupRaw : RawResult :=
  { url := some "http://a.org/x", title := some "T1", content := some "C1" }

/-- Claim C2, witness: the duplicated surviving url is counted exactly
once. -/
theorem c2_dedup_witness :
    List.count "http://a.org/x"
        (([⟨"General Web", "http://a.org/x", "T1", "C1"⟩] : List LabeledEvidence).map
          (fun e => e.url)) = 1 :=
  ((c2_dedup [c2DupRaw, c2DupRaw] [⟨"General Web", "http://a.org/x", "T1", "C1"⟩]
      "http://a.org/x" rfl).2 ⟨c2DupRaw, by simp, rfl⟩ (by decide)).1

/-- First denylisted raw result for the C3 scenarios. -/
def c3BanRaw1 : RawResult :=
  { url := some "http://wanderlog.com/a", title := some "TA", content := some "CA" }

/-- Second denylisted raw result, a different url on the same denylisted
domain. -/
def c3BanRaw2 : RawResult :=
  { url := some "http://wanderlog.com/b", title := some "TB", content := some "CB" }

/-- Claim C3: no emitted evidence record has a url whose extracted domain
contains a denylisted substring; two distinct urls on the same denylisted
domain are each dropped on their own evaluation, and a repeat of the same
denylisted url (as from a second query) is not re-surfaced. -/
theorem c3_denylist (rs : List RawResult) (out : List LabeledEvidence)
    (h : filter_and_label rs = Except.ok out) :
    (∀ e ∈ out, ∀ bad ∈ banned_domains, strContains (extract_domain e.url) bad = false) ∧
    filter_and_label [c3BanRaw1, c3BanRaw2] = Except.ok [] ∧
    filter_and_label [c3BanRaw1, c3BanRaw1] = Except.ok [] := by
  refine ⟨?_, rfl, rfl⟩
  intro e he bad hbad
  have hb := (filterLoop_mem rs [] out h e he).2.1
  by_cases hc : strContains (extract_domain e.url) bad = true
  · exfalso
    have hany : bannedHit (extract_domain e.url) = true := by
      unfold bannedHit
      exact List.any_eq_true.mpr ⟨bad, hbad, hc⟩
    rw [hb] at hany
    exact absurd hany (by decide)
  · simpa using hc

/-- A surviving raw result for the C3 witness. -/
def c3GoodRaw : RawResult :=
  { url := some "http://example.org/ok", title := some "T", content := some "C" }

/-- Claim C3, witness: the surviving record's domain holds no denylisted
substring. -/
theorem c3_denylist_witness :
    strContains (extract_domain
        (⟨"General Web", "http://example.org/ok", "T", "C"⟩ : LabeledEvidence).url)
      "wanderlog.com" = false :=
  (c3_denylist [c3GoodRaw] [⟨"General Web", "http://example.org/ok", "T", "C"⟩] rfl).1
    ⟨"General Web", "http://example.org/ok", "T", "C"⟩ (by simp) "wanderlog.com"
    (by simp [banned_domains])

/-- Result A of the C4 order scenario. -/
def c4RawA : RawResult :=
  { url := some "http://siteA.org/a", title := some "Title A", content := some "Snippet A" }

/-- Result B of the C4 order scenario. -/
def c4RawB : RawResult :=
  { url := some "http://siteB.org/b", title := some "Title B", content := some "Snippet B" }

/-- Result C of the C4 order scenario. -/
def c4RawC : RawResult :=
  { url := some "http://siteC.org/c", title := some "Title C", content := some "Snippet C" }

/-- Claim C4: the emitted url sequence is exactly the first-seen-order trace
of the raw urls (queries scanned in planning order, pages in provider
order), restricted to the non-denylisted ones; in particular Q1 = [A, B]
and Q2 = [C, A] concatenate to [A, B, C, A] and come out as [A, B, C] with
the duplicate A dropped. -/
theorem c4_order (rs : List RawResult) (out : List LabeledEvidence)
    (h : filter_and_label rs = Except.ok out) :
    out.map (fun e => e.url) =
      (firstOccur [] (rs.map (fun r => r.url.getD ""))).filter
        (fun u => !bannedHit (extract_domain u)) ∧
    filter_and_label [c4RawA, c4RawB, c4RawC, c4RawA] =
      Except.ok
        [⟨"General Web", "http://siteA.org/a", "Title A", "Snippet A"⟩,
         ⟨"General Web", "http://siteB.org/b", "Title B", "Snippet B"⟩,
         ⟨"General Web", "http://siteC.org/c", "Title C", "Snippet C"⟩] :=
  ⟨filterLoop_urls rs [] out h, rfl⟩

/-- Claim C4, witness: the one-result instance of the order equation. -/
theorem c4_order_witness :
    ([⟨"General Web", "http://siteA.org/a", "Title A", "Snippet A"⟩] : List LabeledEvidence).map
        (fun e => e.url) =
      (firstOccur [] ([c4RawA].map (fun r => r.url.getD ""))).filter
        (fun u => !bannedHit (extract_domain u)) :=
  (c4_order [c4RawA] [⟨"General Web", "http://siteA.org/a", "Title A", "Snippet A"⟩] rfl).1

/-- First raw result of the C5 same-domain scenario. -/
def c5Raw1 : RawResult :=
  { url := some "http://a.com/1", title := some "T1", content := some "C1" }

/-- Second raw result of the C5 same-domain scenario, a distinct url on the
same domain. -/
def c5Raw2 : RawResult :=
  { url := some "http://a.com/2", title := some "T2", content := some "C2" }

/-- Claim C5: every emitted record's label is a function of its extracted
domain, namely the first matching row of the fixed ordered substring table
(generic label when no row matches); `www.booking.com` gets the booking
label and not the generic one, and the two distinct urls on the surviving
domain `a.com` both survive with the same label. -/
theorem c5_labeling (rs : List RawResult) (out : List LabeledEvidence) (e : LabeledEvidence)
    (h : filter_and_label rs = Except.ok out) (he : e ∈ out) :
    e.source_label = labelOf (extract_domain e.url) ∧
    (∀ d, labelOf d = tableLookup labelTable d) ∧
    labelOf "www.booking.com" = "BOOKING.COM" ∧
    filter_and_label [c5Raw1, c5Raw2] =
      Except.ok
        [⟨"General Web", "http://a.com/1", "T1", "C1"⟩,
         ⟨"General Web", "http://a.com/2", "T2", "C2"⟩] := by
  refine ⟨(filterLoop_mem rs [] out h e he).1, ?_, by decide, rfl⟩
  intro d
  simp [labelOf, tableLookup, labelTable, rowMatches, or_assoc]

/-- Claim C5, witness: the emitted record of a singleton run carries the
label of its domain. -/
theorem c5_labeling_witness :
    (⟨"General Web", "http://a.com/1", "T1", "C1"⟩ : LabeledEvidence).source_label =
      labelOf (extract_domain
        (⟨"General Web", "http://a.com/1", "T1", "C1"⟩ : LabeledEvidence).url) :=
  (c5_labeling [c5Raw1] [⟨"General Web", "http://a.com/1", "T1", "C1"⟩]
    ⟨"General Web", "http://a.com/1", "T1", "C1"⟩ rfl (by simp)).1

/-- Claim C6, counterexample: a raw result with no `url` key makes the
filter pass fail with the Python `KeyError` rendering, instead of being
processed with an empty-string field as the claim demands. -/
theorem c6_counterexample :
    filter_and_label [RawResult.mk none (some "T") (some "C")] = Except.error "'url'" := rfl

/-- Claim C6 (amended): a raw result missing its `url`, `title` or
`content` key is fatal for the filter step — the pass stops with a
`KeyError` instead of treating the field as empty — and `perform_research`
then swallows it into the string `"Search failed: ..."` for the whole
research call. -/
theorem c6_missing_field (rs : List RawResult)
    (h : ∃ r ∈ rs, r.url = none ∨ r.title = none ∨ r.content = none) :
    (∃ msg, filter_and_label rs = Except.error msg) ∧
    perform_research (fun _ => Except.ok [RawResult.mk none (some "T") (some "C")])
        "M" "General" "Geneva" "" = "Search failed: 'url'" :=
  ⟨filterLoop_missing rs [] h, rfl⟩

/-- Claim C6, witness: one malformed record suffices to fail the pass. -/
theorem c6_missing_field_witness :
    ∃ msg, filter_and_label [RawResult.mk none (some "TT") (some "CC")] = Except.error msg :=
  (c6_missing_field [RawResult.mk none (some "TT") (some "CC")]
    ⟨RawResult.mk none (some "TT") (some "CC"), by simp, Or.inl rfl⟩).1

/-- Claim C7: a failing search call for one query is exactly an empty page
for that query — sibling queries are untouched and the pipeline is not
aborted — and when every query yields nothing, the filter step returns the
empty sequence, the formatter the empty string, and the whole research call
the empty string. -/
theorem c7_failure_isolation :
    (∀ (search : String → Except String (List RawResult)) (q0 msg : String) (qs : List String),
      gather (fun q => if q = q0 then Except.error msg else search q) qs =
        gather (fun q => if q = q0 then Except.ok [] else search q) qs) ∧
    filter_and_label [] = Except.ok [] ∧
    formatEvidence [] = "" ∧
    (∀ m c l t, perform_research (fun _ => Except.error "network error") m c l t = "") := by
  refine ⟨fun search q0 msg qs => gather_error_eq_empty search q0 msg qs, rfl, rfl, ?_⟩
  intro m c l t
  simp only [perform_research, gather_all_error]
  rfl

/-- Claim C8, counterexample: for the url `a/b` (no `//` present) the code
extracts `a`, the part before the first slash, while the claim demands the
whole string `a/b`. -/
theorem c8_counterexample :
    extract_domain "a/b" = "a" ∧ specDomain "a/b" = "a/b" ∧
    extract_domain "a/b" ≠ specDomain "a/b" := by
  refine ⟨rfl, rfl, ?_⟩
  decide

/-- Claim C8 (amended): when `//` occurs and no `/` precedes it (as in any
`scheme://host/path` url), the extracted domain is the spec's host — the
substring between the first `//` and the next `/` — and when no `//`
occurs the extracted domain is the part of the url before the first `/`
(the whole string only when the url has no slash at all). -/
theorem c8_domain (pre rest cs : List Char)
    (hpre : ∀ c ∈ pre, c ≠ '/') (hcs : hasSub ['/', '/'] cs = false) :
    extract_domain (String.mk (pre ++ '/' :: '/' :: rest)) =
        String.mk (rest.takeWhile (fun c => !(c == '/'))) ∧
    specDomain (String.mk (pre ++ '/' :: '/' :: rest)) =
        String.mk (rest.takeWhile (fun c => !(c == '/'))) ∧
    extract_domain (String.mk cs) = String.mk (cs.takeWhile (fun c => !(c == '/'))) := by
  have hhas : strContains (String.mk (pre ++ '/' :: '/' :: rest)) "//" = true := by
    unfold strContains
    rw [toList_mk]
    exact hasSub_append_of_right _ pre _ (hasSub_self_append ['/', '/'] rest)
  have hsc2 : splitChar '/' ('/' :: '/' :: rest) = [] :: [] :: splitChar '/' rest := by
    simp [splitChar]
  refine ⟨?_, ?_, ?_⟩
  · obtain ⟨h2, t2, hsc, happ⟩ := splitChar_append '/' pre ('/' :: '/' :: rest) hpre
    rw [hsc2] at hsc
    injection hsc.symm with e1 e2
    subst e1
    subst e2
    unfold extract_domain
    rw [if_pos hhas, toList_mk, happ]
    have hg : ((pre ++ []) :: [] :: splitChar '/' rest).getD 2 [] =
        (splitChar '/' rest).getD 0 [] := rfl
    rw [hg, splitChar_getD_zero]
  · unfold specDomain
    rw [toList_mk, dropAfter_slashes pre rest hpre]
  · have hno : strContains (String.mk cs) "//" = false := by
      unfold strContains
      rw [toList_mk]
      exact hcs
    unfold extract_domain
    rw [hno]
    simp only [Bool.false_eq_true, if_false]
    rw [toList_mk, splitChar_getD_zero]

/-- Claim C8, witness: for `http://a.com/1` the extracted domain is the
host `a.com` cut at the next slash. -/
theorem c8_domain_witness :
    extract_domain (String.mk (['h', 't', 't', 'p', ':'] ++ '/' :: '/' ::
        ['a', '.', 'c', 'o', 'm', '/', '1'])) =
      String.mk (['a', '.', 'c', 'o', 'm', '/', '1'].takeWhile (fun c => !(c == '/'))) :=
  (c8_domain ['h', 't', 't', 'p', ':'] ['a', '.', 'c', 'o', 'm', '/', '1'] []
    (by decide) (by decide)).1

/-- Claim C9: the score extraction finds `87` in a report containing
`Score: 87/100 — Needs Review`, and yields `N/A` on every report text with
no (case-insensitive) `Score` token. -/
theorem c9_score :
    extractScore "Executive Summary\nScore: 87/100 — Needs Review" = "87" ∧
    (∀ s, hasScoreToken s = false → extractScore s = "N/A") := by
  refine ⟨by decide, ?_⟩
  intro s hs
  cases hq : searchScoreAux s.toList with
  | none => unfold extractScore; rw [hq]
  | some g =>
    exfalso
    have htok := searchScoreAux_token s.toList g hq
    unfold hasScoreToken at hs
    rw [htok] at hs
    exact absurd hs (by decide)

/-- Claim C9, witness: a report with no score token archives as `N/A`. -/
theorem c9_score_witness : extractScore "No numeric verdict was given" = "N/A" :=
  c9_score.2 "No numeric verdict was given" (by decide)
